import Mathlib

/-!
Shallow embedding of `src/index.js` of the `my-create-node-server` scaffolding
tool, together with theorems settling the frozen claims about it.

Strings are modelled as `List Char` so that the JavaScript string operations
used by the generator (`split`, `trim`, `filter(Boolean)`, `join`) become
provable list operations.  The generator itself is modelled as a pure function
from the collected answers to the sequence of side effects it performs
(directory creations, file writes, external command invocations, log lines),
in the order the script performs them.  External command failure and the
pre-existence of the target directory are modelled by explicit oracles.
-/

set_option maxRecDepth 100000

namespace CreateNodeServer

/-- Strings of the JavaScript program, modelled as lists of characters. -/
abbrev Str := List Char

/-- Model of JavaScript `String.prototype.trim`: drop whitespace from both
ends of the string. -/
def jsTrim (s : Str) : Str :=
  ((s.dropWhile Char.isWhitespace).reverse.dropWhile Char.isWhitespace).reverse

/-- Model of JavaScript `s.split(sep)` for a one-character separator:
`List.splitOn` has exactly the same behaviour (`"".split(",") = [""]`,
`"a,".split(",") = ["a", ""]`, ...). -/
def jsSplit (sep : Char) (s : Str) : List Str :=
  s.splitOn sep

/-- The token parsing used twice in `index.js` (lines 54 and 69):
`s.split(",").map(d => d.trim()).filter(Boolean)` — split on commas, trim
each piece, keep the non-empty ones. -/
def parseTokens (s : Str) : List Str :=
  ((jsSplit ',' s).map jsTrim).filter (fun t => t ≠ [])

/-- The answer record collected by the `inquirer.prompt` call
(lines 9 to 45 of `index.js`), with the source's field names.
`language` is one of `"JavaScript"` or `"TypeScript"`; `envVars` is the
raw comma-separated input (the prompt only shows it when `addEnv` is true,
an absent answer being the empty string). -/
structure Answers where
  projectName : Str
  language : Str
  useMongo : Bool
  useDocker : Bool
  dependencies : Str
  addEnv : Bool
  envVars : Str
  useESLint : Bool
  initGit : Bool
deriving DecidableEq

/-- Line 48: `const isTS = language === "TypeScript";`. -/
def isTS (a : Answers) : Bool :=
  a.language == "TypeScript".toList

/-- Line 54: the runtime dependency list,
`["express", ...(useMongo ? ["mongoose"] : []),
  ...dependencies.split(",").map(d => d.trim()).filter(Boolean)]`. -/
def deps (a : Answers) : List Str :=
  ["express".toList]
    ++ (if a.useMongo then ["mongoose".toList] else [])
    ++ parseTokens a.dependencies

/-- Lines 55 to 57: the dev-dependency list. -/
def devDeps (a : Answers) : List Str :=
  if isTS a then
    ["typescript".toList, "@types/node".toList, "@types/express".toList,
     "ts-node-dev".toList]
  else []

/-- Line 60: `const serverPath = isTS ? "src/index.ts" : "server.js";`. -/
def serverPath (a : Answers) : Str :=
  if isTS a then "src/index.ts".toList else "server.js".toList

/-- Lines 62 to 64: the entry-point template, chosen by language. -/
def serverContent (a : Answers) : Str :=
  if isTS a then
    ("import express from \x27express\x27;\nconst app = express();\napp.listen(3000, () => console.log(\x27Server running\x27));\n").toList
  else
    ("const express = require(\x27express\x27);\nconst app = express();\napp.listen(3000, () => console.log(\x27Server running\x27));\n").toList

/-- Line 69: `const vars = envVars.split(",").map(v => v.trim()).filter(Boolean);`. -/
def envVarsTokens (a : Answers) : List Str :=
  parseTokens a.envVars

/-- Line 70: `const envContent = vars.map(v => \x60$\x7bv\x7d=\x60).join("\n");`. -/
def envContent (a : Answers) : Str :=
  List.intercalate "\n".toList ((envVarsTokens a).map (fun v => v ++ "=".toList))

/-- Lines 76 to 84: the Dockerfile template literal, before `.trim()`. -/
def dockerfileRaw : Str :=
  ("\nFROM node:18\nWORKDIR /app\nCOPY package*.json ./\nRUN npm install\nCOPY . .\nCMD [\"npm\", \"start\"]\nEXPOSE 3000\n    ").toList

/-- Line 84: the Dockerfile content actually written (after `.trim()`). -/
def dockerfile : Str :=
  jsTrim dockerfileRaw

/-- Lines 89 to 95: the `.gitignore` template literal, before `.trim()`. -/
def gitignoreRaw : Str :=
  ("\nnode_modules\n.env\ndist\n.DS_Store\nnpm-debug.log\n  ").toList

/-- Line 95: the `.gitignore` content actually written (after `.trim()`). -/
def gitignore : Str :=
  jsTrim gitignoreRaw

/-- Lines 104 to 115: `JSON.stringify(tsconfig, null, 2)` of the fixed
tsconfig object. -/
def tsconfigContent : Str :=
  ("\x7b\n  \"compilerOptions\": \x7b\n    \"target\": \"ES6\",\n    \"module\": \"commonjs\",\n    \"outDir\": \"./dist\",\n    \"rootDir\": \"./src\",\n    \"strict\": true,\n    \"esModuleInterop\": true\n  \x7d\n\x7d").toList

/-- Lines 120 to 123: the lint dev-dependency list. -/
def lintDeps (a : Answers) : List Str :=
  ["eslint".toList, "prettier".toList]
    ++ (if isTS a then
          ["@typescript-eslint/parser".toList,
           "@typescript-eslint/eslint-plugin".toList]
        else [])

/-- Lines 126 to 143: `JSON.stringify(eslintConfig, null, 2)`, chosen by
language. -/
def eslintConfigContent (a : Answers) : Str :=
  if isTS a then
    ("\x7b\n  \"parser\": \"@typescript-eslint/parser\",\n  \"extends\": [\n    \"eslint:recommended\",\n    \"plugin:@typescript-eslint/recommended\"\n  ],\n  \"parserOptions\": \x7b\n    \"ecmaVersion\": 2020,\n    \"sourceType\": \"module\"\n  \x7d,\n  \"rules\": \x7b\x7d\n\x7d").toList
  else
    ("\x7b\n  \"env\": \x7b\n    \"node\": true,\n    \"es2021\": true\n  \x7d,\n  \"extends\": [\n    \"eslint:recommended\"\n  ],\n  \"parserOptions\": \x7b\n    \"ecmaVersion\": \"latest\",\n    \"sourceType\": \"module\"\n  \x7d,\n  \"rules\": \x7b\x7d\n\x7d").toList

/-- Lines 161 to 163:
`const startScript = isTS ? "ts-node-dev src/index.ts" : "node server.js";`. -/
def startScript (a : Answers) : Str :=
  if isTS a then "ts-node-dev src/index.ts".toList else "node server.js".toList

/-- The parsed `package.json` manifest (line 159).  The `scripts` object is an
ordered key/value association (JavaScript objects keep insertion order);
every other manifest field is collected, opaquely, in `rest`. -/
structure PackageJson where
  scripts : List (Str × Str)
  rest : List (Str × Str)
deriving DecidableEq

/-- Semantics of the JavaScript object spread with override
`\x7b...obj, k: v\x7d`: if `k` is already a key its value is updated in place,
otherwise the pair `(k, v)` is appended at the end. -/
def objSet (k v : Str) : List (Str × Str) → List (Str × Str)
  | [] => [(k, v)]
  | (k', v') :: rest => if k' = k then (k, v) :: rest else (k', v') :: objSet k v rest

/-- Key lookup in the ordered association modelling a JavaScript object. -/
def objGet (k : Str) : List (Str × Str) → Option Str
  | [] => none
  | (k', v') :: rest => if k' = k then some v' else objGet k rest

/-- Lines 165 to 168:
`packageJson.scripts = \x7b ...packageJson.scripts, start: startScript \x7d;`
with every other manifest field left as read. -/
def patchPackageJson (a : Answers) (p : PackageJson) : PackageJson :=
  { p with scripts := objSet "start".toList (startScript a) p.scripts }

/-- One side effect of the generator, in the order the script performs them:
a directory creation, a file write, a synchronous external command
(`execSync`), a console log, or the manifest read-back/rewrite of the final
start-script patch. -/
inductive Action where
  | mkdirA (path : Str)
  | writeA (path : Str) (content : Str)
  | execA (cmd : Str)
  | logA (msg : Str)
  | readPkgA
  | writePkgA (p : PackageJson)
deriving DecidableEq

/-- Model of `path.join` for the simple `dir/name` joins the script uses. -/
def pjoin (a b : Str) : Str :=
  a ++ "/".toList ++ b

/-- Line 51: `const folders = ["routes", "controllers", "models", "config"];`. -/
def folders : List Str :=
  ["routes".toList, "controllers".toList, "models".toList, "config".toList]

/-- Line 100: `npm install ${deps.join(" ")}`. -/
def npmInstallCmd (a : Answers) : Str :=
  "npm install ".toList ++ List.intercalate " ".toList (deps a)

/-- Line 101: `npm install -D ${devDeps.join(" ")}`. -/
def npmInstallDevCmd (a : Answers) : Str :=
  "npm install -D ".toList ++ List.intercalate " ".toList (devDeps a)

/-- Line 124: `npm install -D ${lintDeps.join(" ")}`. -/
def npmInstallLintCmd (a : Answers) : Str :=
  "npm install -D ".toList ++ List.intercalate " ".toList (lintDeps a)

/-- Line 72: the log message printed after writing `.env`. -/
def envLogMsg (a : Answers) : Str :=
  ".env file created with: ".toList
    ++ List.intercalate ", ".toList (envVarsTokens a)

/-- Line 155: the success message printed after the git step. -/
def successMsg (a : Answers) : Str :=
  "\n Project \"".toList ++ a.projectName ++ "\" created successfully!".toList

/-- Lines 50 to 181, given the answers and the manifest content that the
final read-back of `package.json` returns: the full sequence of side effects
the script performs when nothing fails, in program order.  The guards mirror
the source (`if (deps.length)`, `if (devDeps.length)`, `if (isTS)`,
`if (useESLint)`, `if (initGit)`, `if (addEnv)`, `if (useDocker)`). -/
def actions (a : Answers) (pkg : PackageJson) : List Action :=
  [Action.mkdirA a.projectName]
    ++ folders.map (fun f => Action.mkdirA (pjoin a.projectName f))
    ++ (if isTS a then [Action.mkdirA (pjoin a.projectName "src".toList)] else [])
    ++ [Action.writeA (pjoin a.projectName (serverPath a)) (serverContent a)]
    ++ (if a.addEnv then
          [Action.writeA (pjoin a.projectName ".env".toList) (envContent a),
           Action.logA (envLogMsg a)]
        else [])
    ++ (if a.useDocker then
          [Action.writeA (pjoin a.projectName "Dockerfile".toList) dockerfile]
        else [])
    ++ [Action.writeA (pjoin a.projectName ".gitignore".toList) gitignore]
    ++ [Action.execA "npm init -y".toList]
    ++ (if deps a ≠ [] then [Action.execA (npmInstallCmd a)] else [])
    ++ (if devDeps a ≠ [] then [Action.execA (npmInstallDevCmd a)] else [])
    ++ (if isTS a then
          [Action.writeA (pjoin a.projectName "tsconfig.json".toList) tsconfigContent]
        else [])
    ++ (if a.useESLint then
          [Action.execA (npmInstallLintCmd a),
           Action.writeA (pjoin a.projectName ".eslintrc.json".toList)
             (eslintConfigContent a),
           Action.writeA (pjoin a.projectName ".prettierrc".toList) "\x7b\x7d".toList]
        else [])
    ++ (if a.initGit then
          [Action.execA "git init".toList,
           Action.execA "git add .".toList,
           Action.execA "git commit -m \"Initial commit\"".toList,
           Action.logA "Git repo initialized with first commit.".toList]
        else [])
    ++ [Action.logA (successMsg a)]
    ++ [Action.readPkgA,
        Action.writePkgA (patchPackageJson a pkg)]
    ++ [Action.logA "ðŸš€ To run the app:\n   npm start".toList]
    ++ (if isTS a then
          [Action.logA "\n To compile the app:\n   tsc".toList,
           Action.logA " To run the app:\n   node dist/index.js".toList,
           Action.logA " Or use ts-node:\n   npx ts-node src/index.ts".toList]
        else
          [Action.logA " To run the app:\n   node server.js".toList])

/-- The error taxonomy of a run: `fs.mkdirSync(projectPath)` throwing because
the target directory already exists (line 50), or an `execSync` call throwing
because the external command exited non-zero; the latter carries the failing
command line.  Every error aborts the run. -/
inductive GenError where
  | pathExists
  | cmdFailed (cmd : Str)
deriving DecidableEq

/-- Execute a list of intended effects against a command oracle: `failCmd c`
tells whether the external command `c` exits non-zero.  Returns the effects
actually performed, in order, and the first failing command if any; a failing
`execSync` throws, so nothing after it runs, and nothing performed before it
is undone. -/
def runActions (failCmd : Str → Bool) : List Action → List Action × Option Str
  | [] => ([], none)
  | Action.execA c :: rest =>
      if failCmd c then ([Action.execA c], some c)
      else
        let r := runActions failCmd rest
        (Action.execA c :: r.1, r.2)
  | act :: rest =>
      let r := runActions failCmd rest
      (act :: r.1, r.2)

/-- The whole run of the script: if the target directory already exists,
`fs.mkdirSync(projectPath)` on line 50 throws before any effect is performed;
otherwise the pipeline runs until the first failing external command (if
any).  Returns the performed effects and the error that ended the run, if
one did. -/
def generate (a : Answers) (targetExists : Bool) (failCmd : Str → Bool)
    (pkg : PackageJson) : List Action × Option GenError :=
  if targetExists then ([], some GenError.pathExists)
  else
    match runActions failCmd (actions a pkg) with
    | (t, none) => (t, none)
    | (t, some c) => (t, some (GenError.cmdFailed c))

/-- Directory-creation effects of a run, in order. -/
def mkdirPaths (a : Answers) (pkg : PackageJson) : List Str :=
  (actions a pkg).filterMap (fun act =>
    match act with
    | Action.mkdirA p => some p
    | _ => none)

/-- File-write effects of a run (path and content), in order; the final
`package.json` rewrite is a separate `writePkgA` effect and is not listed
here. -/
def writtenFiles (a : Answers) (pkg : PackageJson) : List (Str × Str) :=
  (actions a pkg).filterMap (fun act =>
    match act with
    | Action.writeA p c => some (p, c)
    | _ => none)

/-- Modelled from the spec: re-parsing a written `.env` file.  The spec's
format is "lines `NAME=`, one per variable, no quoting, trailing values
always empty", so the parse splits the content into lines and takes, on each
line, what stands before the first `=`, discarding blank names. -/
def parseEnvNames (content : Str) : List Str :=
  ((content.splitOn '\n').map (fun l => l.takeWhile (fun c => c ≠ '='))).filter
    (fun n => n ≠ [])

/-- Concrete request refuting claim C1's "contains mongoose iff useMongo":
`useMongo` is false but the extra-dependency input is `"mongoose"`. -/
def aC1 : Answers :=
  { projectName := "demo".toList, language := "JavaScript".toList,
    useMongo := false, useDocker := false, dependencies := "mongoose".toList,
    addEnv := false, envVars := [], useESLint := false, initGit := false }

/-- First concrete request for the claim C4 witness (TypeScript, everything
else switched on). -/
def aC4a : Answers :=
  { projectName := "one".toList, language := "TypeScript".toList,
    useMongo := true, useDocker := true, dependencies := "cors, axios".toList,
    addEnv := true, envVars := "PORT, DB_URL".toList, useESLint := true,
    initGit := true }

/-- Second concrete request for the claim C4 witness (TypeScript, everything
else switched off). -/
def aC4b : Answers :=
  { projectName := "two".toList, language := "TypeScript".toList,
    useMongo := false, useDocker := false, dependencies := [],
    addEnv := false, envVars := [], useESLint := false, initGit := false }

/-- Concrete request refuting claim C5's unconditional round-trip: the
single env variable token is `A=B`, whose written line `A=B=` re-parses to
the name `A`. -/
def aC5 : Answers :=
  { projectName := "demo".toList, language := "JavaScript".toList,
    useMongo := false, useDocker := false, dependencies := [],
    addEnv := true, envVars := "A=B".toList, useESLint := false,
    initGit := false }

/-- Concrete manifest used by witnesses: the shape `npm init -y` produces
(a `test` script and some top-level fields). -/
def pkgEx : PackageJson :=
  { scripts := [("test".toList, "echo test".toList)],
    rest := [("name".toList, "demo".toList), ("version".toList, "1.0.0".toList)] }

/-- Concrete request used by witnesses of several claims. -/
def aEx : Answers :=
  { projectName := "demo".toList, language := "TypeScript".toList,
    useMongo := true, useDocker := true, dependencies := "cors, dotenv".toList,
    addEnv := true, envVars := "PORT, DB_URL".toList, useESLint := true,
    initGit := true }

/-- Concrete request refuting claim C6: `addEnv` is true, the env-variable
input `" , "` parses to zero tokens, yet the run still writes an (empty)
`.env` file. -/
def aC6 : Answers :=
  { projectName := "demo".toList, language := "JavaScript".toList,
    useMongo := false, useDocker := false, dependencies := [],
    addEnv := true, envVars := " , ".toList, useESLint := false,
    initGit := false }

/-- Command oracle for the claim C9 witness: exactly `git add .` fails. -/
def failC9 : Str → Bool := fun c => c == "git add .".toList

/-- The effects the script performs before the final `package.json`
start-script patch (everything from the directory creation through the
success log and the manifest read-back). -/
def preActions (a : Answers) : List Action :=
  [Action.mkdirA a.projectName]
    ++ folders.map (fun f => Action.mkdirA (pjoin a.projectName f))
    ++ (if isTS a then [Action.mkdirA (pjoin a.projectName "src".toList)] else [])
    ++ [Action.writeA (pjoin a.projectName (serverPath a)) (serverContent a)]
    ++ (if a.addEnv then
          [Action.writeA (pjoin a.projectName ".env".toList) (envContent a),
           Action.logA (envLogMsg a)]
        else [])
    ++ (if a.useDocker then
          [Action.writeA (pjoin a.projectName "Dockerfile".toList) dockerfile]
        else [])
    ++ [Action.writeA (pjoin a.projectName ".gitignore".toList) gitignore]
    ++ [Action.execA "npm init -y".toList]
    ++ (if deps a ≠ [] then [Action.execA (npmInstallCmd a)] else [])
    ++ (if devDeps a ≠ [] then [Action.execA (npmInstallDevCmd a)] else [])
    ++ (if isTS a then
          [Action.writeA (pjoin a.projectName "tsconfig.json".toList) tsconfigContent]
        else [])
    ++ (if a.useESLint then
          [Action.execA (npmInstallLintCmd a),
           Action.writeA (pjoin a.projectName ".eslintrc.json".toList)
             (eslintConfigContent a),
           Action.writeA (pjoin a.projectName ".prettierrc".toList) "\x7b\x7d".toList]
        else [])
    ++ (if a.initGit then
          [Action.execA "git init".toList,
           Action.execA "git add .".toList,
           Action.execA "git commit -m \"Initial commit\"".toList,
           Action.logA "Git repo initialized with first commit.".toList]
        else [])
    ++ [Action.logA (successMsg a)]
    ++ [Action.readPkgA]

/-- The effects the script performs after the final `package.json`
start-script patch (the closing instruction logs). -/
def postActions (a : Answers) : List Action :=
  [Action.logA "ðŸš€ To run the app:\n   npm start".toList]
    ++ (if isTS a then
          [Action.logA "\n To compile the app:\n   tsc".toList,
           Action.logA " To run the app:\n   node dist/index.js".toList,
           Action.logA " Or use ts-node:\n   npx ts-node src/index.ts".toList]
        else
          [Action.logA " To run the app:\n   node server.js".toList])

theorem deps_ne_nil (a : Answers) : deps a ≠ [] := by
  simp [deps]

theorem pjoin_eq_iff (a b c : Str) : pjoin a b = pjoin a c ↔ b = c := by
  constructor
  · intro h
    have h' := h
    simp only [pjoin, List.append_assoc] at h'
    exact List.append_cancel_left (List.append_cancel_left h')
  · intro h
    rw [h]

theorem pjoin_injective (a : Str) : Function.Injective (pjoin a) := by
  intro b c h
  exact (pjoin_eq_iff a b c).mp h

/-- Claim C2: the directories the generator creates are exactly the project
root plus the subfolders `routes`, `controllers`, `models`, `config`, and
`src` exactly when the language is TypeScript — no other directory-creation
effect occurs in any run. -/
theorem mkdir_effects (a : Answers) (pkg : PackageJson) :
    mkdirPaths a pkg =
      a.projectName ::
        (folders.map (pjoin a.projectName)
          ++ (if isTS a then [pjoin a.projectName "src".toList] else [])) := by
  have hd : deps a ≠ [] := deps_ne_nil a
  cases hTS : isTS a <;> cases hEnv : a.addEnv <;> cases hDk : a.useDocker <;>
    cases hL : a.useESLint <;> cases hG : a.initGit <;>
      simp [mkdirPaths, actions, devDeps, folders, hTS, hEnv, hDk, hL, hG, hd]

/-- Write effects of a run, paths and contents; helper shared by several
claims. -/
theorem writtenFiles_eq (a : Answers) (pkg : PackageJson) :
    writtenFiles a pkg =
      [(pjoin a.projectName (serverPath a), serverContent a)]
        ++ (if a.addEnv then [(pjoin a.projectName ".env".toList, envContent a)] else [])
        ++ (if a.useDocker then [(pjoin a.projectName "Dockerfile".toList, dockerfile)] else [])
        ++ [(pjoin a.projectName ".gitignore".toList, gitignore)]
        ++ (if isTS a then [(pjoin a.projectName "tsconfig.json".toList, tsconfigContent)] else [])
        ++ (if a.useESLint then
              [(pjoin a.projectName ".eslintrc.json".toList, eslintConfigContent a),
               (pjoin a.projectName ".prettierrc".toList, "\x7b\x7d".toList)]
            else []) := by
  have hd : deps a ≠ [] := deps_ne_nil a
  cases hTS : isTS a <;> cases hEnv : a.addEnv <;> cases hDk : a.useDocker <;>
    cases hL : a.useESLint <;> cases hG : a.initGit <;>
      simp [writtenFiles, actions, devDeps, hTS, hEnv, hDk, hL, hG, hd]

/-- File names (relative to the project directory) of the write effects of a
run; helper shared by several claims. -/
theorem writtenNames_eq (a : Answers) (pkg : PackageJson) :
    (writtenFiles a pkg).map Prod.fst =
      (([serverPath a]
        ++ (if a.addEnv then [".env".toList] else [])
        ++ (if a.useDocker then ["Dockerfile".toList] else [])
        ++ [".gitignore".toList]
        ++ (if isTS a then ["tsconfig.json".toList] else [])
        ++ (if a.useESLint then [".eslintrc.json".toList, ".prettierrc".toList] else []))).map
        (pjoin a.projectName) := by
  rw [writtenFiles_eq]
  cases hTS : isTS a <;> cases hEnv : a.addEnv <;> cases hDk : a.useDocker <;>
    cases hL : a.useESLint <;> simp [hTS, hEnv, hDk, hL]

/-- Claim C1, as stated, is false: with `useMongo = false` and the
extra-dependencies input `"mongoose"`, the assembled dependency list does
contain `mongoose`, so "contains mongoose iff useMongo is true" fails. -/
theorem deps_mongoose_not_iff :
    ¬(("mongoose".toList ∈ deps aC1) ↔ aC1.useMongo = true) := by
  decide

/-- Claim C1 (amended): the assembled runtime dependency list is exactly
`express`, followed by `mongoose` when `useMongo` is true, followed by the
non-empty trimmed tokens of the comma-separated extra-dependencies input in
input order with duplicates kept; consequently it contains `mongoose` iff
`useMongo` is true or `mongoose` is itself one of the extra tokens. -/
theorem deps_assembly (a : Answers) :
    deps a =
      "express".toList ::
        ((if a.useMongo then ["mongoose".toList] else [])
          ++ parseTokens a.dependencies) ∧
    ("mongoose".toList ∈ deps a ↔
      (a.useMongo = true ∨ "mongoose".toList ∈ parseTokens a.dependencies)) := by
  have hne : "mongoose".toList ≠ "express".toList := by decide
  constructor
  · simp [deps]
  · cases h : a.useMongo <;> simp [deps, h, List.mem_cons, hne]

/-- Claim C3: the entry point is written (with its template content) at
`src/index.ts` exactly when the language is TypeScript and at `server.js`
exactly otherwise, and the template contains the Express listen call on
port 3000 with its startup log line. -/
theorem server_entry_point (a : Answers) (pkg : PackageJson) :
    Action.writeA (pjoin a.projectName (serverPath a)) (serverContent a)
        ∈ actions a pkg ∧
    serverPath a = (if isTS a then "src/index.ts".toList else "server.js".toList) ∧
    ((pjoin a.projectName "src/index.ts".toList
        ∈ (writtenFiles a pkg).map Prod.fst) ↔ isTS a = true) ∧
    ((pjoin a.projectName "server.js".toList
        ∈ (writtenFiles a pkg).map Prod.fst) ↔ isTS a = false) ∧
    "app.listen(3000, () => console.log(\x27Server running\x27));".toList
      <:+: serverContent a := by
  refine ⟨?_, rfl, ?_, ?_, ?_⟩
  · simp [actions]
  · rw [writtenNames_eq, List.mem_map_of_injective (pjoin_injective a.projectName)]
    cases hTS : isTS a <;> cases hEnv : a.addEnv <;> cases hDk : a.useDocker <;>
      cases hL : a.useESLint <;> simp [serverPath, hTS, hEnv, hDk, hL]
  · rw [writtenNames_eq, List.mem_map_of_injective (pjoin_injective a.projectName)]
    cases hTS : isTS a <;> cases hEnv : a.addEnv <;> cases hDk : a.useDocker <;>
      cases hL : a.useESLint <;> simp [serverPath, hTS, hEnv, hDk, hL]
  · cases hTS : isTS a <;> simp [serverContent, hTS] <;> decide

/-- Claim C4: the entry-point content is a function of the language answer
only — two requests agreeing on `language` get byte-identical content. -/
theorem server_content_language_only (a b : Answers) (h : a.language = b.language) :
    serverContent a = serverContent b := by
  simp [serverContent, isTS, h]

theorem server_content_language_only_witness :
    aC4a.language = aC4b.language ∧ serverContent aC4a = serverContent aC4b :=
  ⟨rfl, server_content_language_only aC4a aC4b rfl⟩

/-- Membership of a file-write effect in a run is membership of its
path/content pair in the write list. -/
theorem writeA_mem_iff (a : Answers) (pkg : PackageJson) (p c : Str) :
    Action.writeA p c ∈ actions a pkg ↔ (p, c) ∈ writtenFiles a pkg := by
  simp only [writtenFiles, List.mem_filterMap]
  constructor
  · intro h
    exact ⟨Action.writeA p c, h, rfl⟩
  · rintro ⟨act, hmem, heq⟩
    cases act <;> simp only [Option.some.injEq, Prod.mk.injEq, reduceCtorEq] at heq
    obtain ⟨rfl, rfl⟩ := heq
    exact hmem

theorem parseTokens_ne_nil (s : Str) : ∀ t ∈ parseTokens s, t ≠ [] := by
  intro t ht
  simp only [parseTokens, List.mem_filter] at ht
  simpa using ht.2

theorem takeWhile_until_eq (t : Str) (h : '=' ∉ t) :
    (t ++ "=".toList).takeWhile (fun c => c ≠ '=') = t := by
  induction t with
  | nil => simp
  | cons c cs ih =>
      have hc : c ≠ '=' := fun he => h (he ▸ List.mem_cons_self c cs)
      have ih' := ih (fun hm => h (List.mem_cons_of_mem c hm))
      simp only [List.cons_append, List.takeWhile_cons]
      rw [if_pos (by simp [hc])]
      exact congrArg (c :: ·) ih'

/-- Round trip of the `.env` writer against the spec's parse, for variable
names free of `=` and newline characters. -/
theorem parseEnvNames_intercalate (vars : List Str)
    (hne : ∀ t ∈ vars, t ≠ [])
    (hq : ∀ t ∈ vars, '=' ∉ t) (hn : ∀ t ∈ vars, '\n' ∉ t) :
    parseEnvNames
        (List.intercalate "\n".toList (vars.map (fun v => v ++ "=".toList)))
      = vars := by
  cases hv : vars with
  | nil => simp [parseEnvNames, List.intercalate]
  | cons v vs =>
      subst hv
      have hls : (v :: vs).map (fun v => v ++ "=".toList) ≠ [] := by simp
      have hx : ∀ l ∈ (v :: vs).map (fun v => v ++ "=".toList), '\n' ∉ l := by
        intro l hl
        rcases List.mem_map.mp hl with ⟨t, ht, rfl⟩
        intro hmem
        rcases List.mem_append.mp hmem with h1 | h2
        · exact hn t ht h1
        · simp at h2
      have hsplit :
          (List.intercalate "\n".toList
              ((v :: vs).map (fun v => v ++ "=".toList))).splitOn '\n'
            = (v :: vs).map (fun v => v ++ "=".toList) := by
        rw [show "\n".toList = ['\n'] from rfl]
        exact List.splitOn_intercalate _ '\n' hx hls
      rw [parseEnvNames, hsplit, List.map_map]
      have hmapped :
          ((v :: vs).map
            ((fun l => l.takeWhile (fun c => c ≠ '=')) ∘ fun v => v ++ "=".toList))
          = v :: vs := by
        rw [List.map_congr_left (fun t ht => ?_), List.map_id]
        exact takeWhile_until_eq t (hq t ht)
      rw [hmapped]
      rw [List.filter_eq_self.mpr]
      intro t ht
      simpa using hne t ht

/-- Claim C5, as stated, is false: with `addEnv` true and env-variable input
`"A=B"`, re-parsing the written `.env` content does not return the input
token list. -/
theorem env_round_trip_fails :
    aC5.addEnv = true ∧ parseEnvNames (envContent aC5) ≠ envVarsTokens aC5 := by
  decide

/-- Claim C5 (amended): the `.env` write effect occurs exactly when `addEnv`
is true; when the tokens contain no newline the written content splits into
exactly one `NAME=` line per non-empty trimmed token of `envVarNames`, in
input order; and re-parsing the written content returns exactly the input
token list provided no token contains `=` or a newline character. -/
theorem env_file (a : Answers) (pkg : PackageJson) :
    ((Action.writeA (pjoin a.projectName ".env".toList) (envContent a)
        ∈ actions a pkg) ↔ a.addEnv = true) ∧
    ((∀ t ∈ envVarsTokens a, '\n' ∉ t) → envVarsTokens a ≠ [] →
      (envContent a).splitOn '\n'
        = (envVarsTokens a).map (fun v => v ++ "=".toList)) ∧
    ((∀ t ∈ envVarsTokens a, '=' ∉ t ∧ '\n' ∉ t) →
      parseEnvNames (envContent a) = envVarsTokens a) := by
  refine ⟨?_, ?_, ?_⟩
  · rw [writeA_mem_iff, writtenFiles_eq]
    cases hTS : isTS a <;> cases hEnv : a.addEnv <;> cases hDk : a.useDocker <;>
      cases hL : a.useESLint <;>
        simp [serverPath, hTS, hEnv, hDk, hL, pjoin_eq_iff]
  · intro hn hne
    have hls : (envVarsTokens a).map (fun v => v ++ "=".toList) ≠ [] := by
      simpa using hne
    have hx : ∀ l ∈ (envVarsTokens a).map (fun v => v ++ "=".toList), '\n' ∉ l := by
      intro l hl
      rcases List.mem_map.mp hl with ⟨t, ht, rfl⟩
      intro hmem
      rcases List.mem_append.mp hmem with h1 | h2
      · exact hn t ht h1
      · simp at h2
    simp only [envContent]
    rw [show "\n".toList = ['\n'] from rfl]
    exact List.splitOn_intercalate _ '\n' hx hls
  · intro h
    simp only [envContent]
    exact parseEnvNames_intercalate (envVarsTokens a)
      (parseTokens_ne_nil a.envVars)
      (fun t ht => (h t ht).1) (fun t ht => (h t ht).2)

theorem env_file_witness :
    (Action.writeA (pjoin aEx.projectName ".env".toList) (envContent aEx)
        ∈ actions aEx pkgEx) ∧
    (envContent aEx).splitOn '\n'
        = (envVarsTokens aEx).map (fun v => v ++ "=".toList) ∧
    parseEnvNames (envContent aEx) = envVarsTokens aEx := by
  have h := env_file aEx pkgEx
  exact ⟨h.1.mpr rfl, h.2.1 (by decide) (by decide), h.2.2 (by decide)⟩

/-- Claim C6, as stated, is false: with `addEnv` true and an env-variable
input that parses to zero tokens, the write of `.env` (with empty content)
still occurs — file creation is not skipped. -/
theorem env_empty_not_skipped :
    aC6.addEnv = true ∧ envVarsTokens aC6 = [] ∧
    Action.writeA (pjoin aC6.projectName ".env".toList) [] ∈ actions aC6 pkgEx := by
  decide

/-- Claim C6 (amended): if `addEnv` is true but the env-variable input parses
to zero non-empty trimmed tokens, the generator still writes the `.env`
file, with empty content. -/
theorem env_empty_tokens_write (a : Answers) (pkg : PackageJson)
    (hEnv : a.addEnv = true) (hTok : envVarsTokens a = []) :
    Action.writeA (pjoin a.projectName ".env".toList) [] ∈ actions a pkg := by
  have hc : envContent a = [] := by simp [envContent, hTok, List.intercalate]
  rw [← hc]
  simp [actions, hEnv]

theorem env_empty_tokens_write_witness :
    Action.writeA (pjoin aC6.projectName ".env".toList) [] ∈ actions aC6 pkgEx :=
  env_empty_tokens_write aC6 pkgEx rfl (by decide)

/-- Claim C7: if the target project directory already exists, the run aborts
with the path-exists error having performed no effect at all: no directory
is created, no file is written, no command is run. -/
theorem target_exists_aborts (a : Answers) (failCmd : Str → Bool)
    (pkg : PackageJson) (tgt : Bool) (h : tgt = true) :
    generate a tgt failCmd pkg = ([], some GenError.pathExists) := by
  simp [generate, h]

theorem target_exists_aborts_witness :
    generate aEx true (fun _ => false) pkgEx = ([], some GenError.pathExists) :=
  target_exists_aborts aEx (fun _ => false) pkgEx true rfl

theorem objGet_objSet_same (k v : Str) (l : List (Str × Str)) :
    objGet k (objSet k v l) = some v := by
  induction l with
  | nil => simp [objSet, objGet]
  | cons p rest ih =>
      by_cases h : p.1 = k
      · simp [objSet, objGet, h]
      · simp [objSet, objGet, h, ih]

theorem objGet_objSet_other (k k' v : Str) (l : List (Str × Str)) (h : k' ≠ k) :
    objGet k' (objSet k v l) = objGet k' l := by
  induction l with
  | nil => simp [objSet, objGet, Ne.symm h]
  | cons p rest ih =>
      by_cases hp : p.1 = k
      · simp [objSet, objGet, hp, Ne.symm h]
      · simp [objSet, objGet, hp, ih]

/-- Claim C8: manifest finalization sets `scripts.start` to
`ts-node-dev src/index.ts` for TypeScript and `node server.js` otherwise,
preserves every other pre-existing script entry (merge, not replace),
leaves every other manifest field unchanged, and the run's final manifest
write carries exactly this patched manifest. -/
theorem manifest_patch (a : Answers) (p : PackageJson) (k : Str)
    (hk : k ≠ "start".toList) :
    objGet "start".toList (patchPackageJson a p).scripts = some (startScript a) ∧
    startScript a =
      (if isTS a then "ts-node-dev src/index.ts".toList else "node server.js".toList) ∧
    objGet k (patchPackageJson a p).scripts = objGet k p.scripts ∧
    (patchPackageJson a p).rest = p.rest ∧
    Action.writePkgA (patchPackageJson a p) ∈ actions a p := by
  refine ⟨objGet_objSet_same _ _ _, rfl, ?_, rfl, by simp [actions]⟩
  exact objGet_objSet_other _ _ _ _ hk

theorem manifest_patch_witness :
    objGet "start".toList (patchPackageJson aEx pkgEx).scripts
        = some (startScript aEx) ∧
    objGet "test".toList (patchPackageJson aEx pkgEx).scripts
        = objGet "test".toList pkgEx.scripts ∧
    (patchPackageJson aEx pkgEx).rest = pkgEx.rest := by
  have h := manifest_patch aEx pkgEx "test".toList (by decide)
  exact ⟨h.1, h.2.2.1, h.2.2.2.1⟩

/-- Characterization of a failing run of the effect executor: the performed
effects are the ones before the first failing command plus that command's
own invocation, every earlier command succeeded, and the failing command is
the reported one. -/
theorem runActions_fail_spec (f : Str → Bool) (l t : List Action) (c : Str)
    (h : runActions f l = (t, some c)) :
    ∃ pre post, l = pre ++ Action.execA c :: post ∧
      t = pre ++ [Action.execA c] ∧ f c = true ∧
      ∀ c', Action.execA c' ∈ pre → f c' = false := by
  induction l generalizing t with
  | nil => simp [runActions] at h
  | cons act rest ih =>
      cases act with
      | execA cmd =>
          have hstep : runActions f (Action.execA cmd :: rest)
              = if f cmd then ([Action.execA cmd], some cmd)
                else (Action.execA cmd :: (runActions f rest).1,
                      (runActions f rest).2) := rfl
          by_cases hf : f cmd = true
          · rw [hstep, if_pos hf] at h
            have ht : [Action.execA cmd] = t := congrArg Prod.fst h
            have hc : some cmd = some c := congrArg Prod.snd h
            obtain rfl : cmd = c := Option.some.inj hc
            exact ⟨[], rest, rfl, ht.symm, hf, by simp⟩
          · rw [hstep, if_neg hf] at h
            have ht : Action.execA cmd :: (runActions f rest).1 = t :=
              congrArg Prod.fst h
            have hc : (runActions f rest).2 = some c := congrArg Prod.snd h
            subst ht
            have hr : runActions f rest = ((runActions f rest).1, some c) := by
              rw [← hc]
            obtain ⟨pre, post, h1, h2, h3, h4⟩ := ih _ hr
            refine ⟨Action.execA cmd :: pre, post, by simp [h1], by simp [h2],
              h3, ?_⟩
            intro c' hc'
            rcases List.mem_cons.mp hc' with he | hm
            · cases he
              exact Bool.eq_false_iff.mpr hf
            · exact h4 c' hm
      | mkdirA p =>
          have hstep : runActions f (Action.mkdirA p :: rest)
              = (Action.mkdirA p :: (runActions f rest).1, (runActions f rest).2) := rfl
          rw [hstep] at h
          have ht : Action.mkdirA p :: (runActions f rest).1 = t := congrArg Prod.fst h
          have hc : (runActions f rest).2 = some c := congrArg Prod.snd h
          subst ht
          have hr : runActions f rest = ((runActions f rest).1, some c) := by
            rw [← hc]
          obtain ⟨pre, post, h1, h2, h3, h4⟩ := ih _ hr
          refine ⟨Action.mkdirA p :: pre, post, by simp [h1], by simp [h2], h3, ?_⟩
          intro c' hc'
          rcases List.mem_cons.mp hc' with he | hm
          · cases he
          · exact h4 c' hm
      | writeA p cont =>
          have hstep : runActions f (Action.writeA p cont :: rest)
              = (Action.writeA p cont :: (runActions f rest).1, (runActions f rest).2) := rfl
          rw [hstep] at h
          have ht : Action.writeA p cont :: (runActions f rest).1 = t := congrArg Prod.fst h
          have hc : (runActions f rest).2 = some c := congrArg Prod.snd h
          subst ht
          have hr : runActions f rest = ((runActions f rest).1, some c) := by
            rw [← hc]
          obtain ⟨pre, post, h1, h2, h3, h4⟩ := ih _ hr
          refine ⟨Action.writeA p cont :: pre, post, by simp [h1], by simp [h2], h3, ?_⟩
          intro c' hc'
          rcases List.mem_cons.mp hc' with he | hm
          · cases he
          · exact h4 c' hm
      | logA m =>
          have hstep : runActions f (Action.logA m :: rest)
              = (Action.logA m :: (runActions f rest).1, (runActions f rest).2) := rfl
          rw [hstep] at h
          have ht : Action.logA m :: (runActions f rest).1 = t := congrArg Prod.fst h
          have hc : (runActions f rest).2 = some c := congrArg Prod.snd h
          subst ht
          have hr : runActions f rest = ((runActions f rest).1, some c) := by
            rw [← hc]
          obtain ⟨pre, post, h1, h2, h3, h4⟩ := ih _ hr
          refine ⟨Action.logA m :: pre, post, by simp [h1], by simp [h2], h3, ?_⟩
          intro c' hc'
          rcases List.mem_cons.mp hc' with he | hm
          · cases he
          · exact h4 c' hm
      | readPkgA =>
          have hstep : runActions f (Action.readPkgA :: rest)
              = (Action.readPkgA :: (runActions f rest).1, (runActions f rest).2) := rfl
          rw [hstep] at h
          have ht : Action.readPkgA :: (runActions f rest).1 = t := congrArg Prod.fst h
          have hc : (runActions f rest).2 = some c := congrArg Prod.snd h
          subst ht
          have hr : runActions f rest = ((runActions f rest).1, some c) := by
            rw [← hc]
          obtain ⟨pre, post, h1, h2, h3, h4⟩ := ih _ hr
          refine ⟨Action.readPkgA :: pre, post, by simp [h1], by simp [h2], h3, ?_⟩
          intro c' hc'
          rcases List.mem_cons.mp hc' with he | hm
          · cases he
          · exact h4 c' hm
      | writePkgA q =>
          have hstep : runActions f (Action.writePkgA q :: rest)
              = (Action.writePkgA q :: (runActions f rest).1, (runActions f rest).2) := rfl
          rw [hstep] at h
          have ht : Action.writePkgA q :: (runActions f rest).1 = t := congrArg Prod.fst h
          have hc : (runActions f rest).2 = some c := congrArg Prod.snd h
          subst ht
          have hr : runActions f rest = ((runActions f rest).1, some c) := by
            rw [← hc]
          obtain ⟨pre, post, h1, h2, h3, h4⟩ := ih _ hr
          refine ⟨Action.writePkgA q :: pre, post, by simp [h1], by simp [h2], h3, ?_⟩
          intro c' hc'
          rcases List.mem_cons.mp hc' with he | hm
          · cases he
          · exact h4 c' hm

/-- Claim C9: whenever an external command invocation exits non-zero, the
run stops there — the performed effects are exactly those preceding the
failing command plus its own invocation (so no later write or command runs
and nothing already performed is undone), every earlier command succeeded,
and the resulting error surfaces the failing command line. -/
theorem command_failure_aborts (a : Answers) (pkg : PackageJson)
    (f : Str → Bool) (t : List Action) (c : Str)
    (h : generate a false f pkg = (t, some (GenError.cmdFailed c))) :
    f c = true ∧
    ∃ pre post, actions a pkg = pre ++ Action.execA c :: post ∧
      t = pre ++ [Action.execA c] ∧
      (∀ c', Action.execA c' ∈ pre → f c' = false) := by
  simp only [generate, Bool.false_eq_true, if_false] at h
  cases hr : runActions f (actions a pkg) with
  | mk t' oc =>
      cases oc with
      | none =>
          rw [hr] at h
          simp at h
      | some c' =>
          rw [hr] at h
          simp only [Prod.mk.injEq, Option.some.injEq, GenError.cmdFailed.injEq] at h
          obtain ⟨rfl, rfl⟩ := h
          obtain ⟨pre, post, h1, h2, h3, h4⟩ := runActions_fail_spec f _ _ _ hr
          exact ⟨h3, pre, post, h1, h2, h4⟩

theorem command_failure_aborts_witness :
    failC9 "git add .".toList = true ∧
    ∃ pre post,
      actions aEx pkgEx = pre ++ Action.execA "git add .".toList :: post ∧
      (generate aEx false failC9 pkgEx).1 = pre ++ [Action.execA "git add .".toList] ∧
      (∀ c', Action.execA c' ∈ pre → failC9 c' = false) := by
  have h := command_failure_aborts aEx pkgEx failC9
    (generate aEx false failC9 pkgEx).1 "git add .".toList (by decide)
  exact ⟨h.1, h.2⟩

theorem actions_decomp (a : Answers) (pkg : PackageJson) :
    actions a pkg =
      preActions a
        ++ Action.writePkgA (patchPackageJson a pkg) :: postActions a := by
  simp [actions, preActions, postActions]

/-- Claim C10: when `initGit` is true the `git commit` invocation and the
success log both occur strictly before the manifest start-script rewrite —
the only `writePkgA` effect of the run — so the committed manifest predates
the patch and success is reported before the manifest is re-read. -/
theorem git_commit_before_manifest_patch (a : Answers) (pkg : PackageJson)
    (h : a.initGit = true) :
    ∃ pre post,
      actions a pkg = pre ++ Action.writePkgA (patchPackageJson a pkg) :: post ∧
      Action.execA "git commit -m \"Initial commit\"".toList ∈ pre ∧
      Action.logA (successMsg a) ∈ pre ∧
      ∀ q, Action.writePkgA q ∉ pre := by
  refine ⟨preActions a, postActions a, actions_decomp a pkg, ?_, ?_, ?_⟩
  · simp [preActions, h]
  · simp [preActions]
  · intro q
    cases hTS : isTS a <;> cases hEnv : a.addEnv <;> cases hDk : a.useDocker <;>
      cases hL : a.useESLint <;>
        simp [preActions, hTS, hEnv, hDk, hL, h, deps_ne_nil a, devDeps]

theorem git_commit_before_manifest_patch_witness :
    ∃ pre post,
      actions aEx pkgEx = pre ++ Action.writePkgA (patchPackageJson aEx pkgEx) :: post ∧
      Action.execA "git commit -m \"Initial commit\"".toList ∈ pre ∧
      Action.logA (successMsg aEx) ∈ pre ∧
      ∀ q, Action.writePkgA q ∉ pre :=
  git_commit_before_manifest_patch aEx pkgEx rfl

end CreateNodeServer
